import Mathlib

/-! # Queue.h : a FIFO adapter over a sequential container

Shallow embedding of `src/Queue.h` (class template `Queue<_Ty, _Container>` with the
default backing container `std::deque<_Ty>`), followed by the verified properties.

Conventions of the embedding:

* The backing `std::deque` is a finite sequence, listed front to back.  Its member
  functions that the standard leaves undefined on an empty deque (`front`, `back`,
  `pop_front`) take the proof that the deque is not empty as an argument, so every call
  site in `Queue` has to justify the call from its own guard.
* A member function declared `noexcept` in the source (`empty`, `size`, `container`) is a
  total function.  Every other function has an error channel `Except Exception`.
* A non-const member function returns the state of the object after the call next to its
  result, *also when it throws*: `Except Exception β × Queue α`.  Const member functions
  and the comparison operators (which take const references) return the result only.
* Storage is unbounded: `push_back` and `emplace_back` of the deque always succeed.  The
  section on appending when the container can fail lifts this for `push`.
* Where the identity of objects matters (copies), queue objects live in a free store
  and the member functions above run on the value read from the storage of the object.
-/

namespace QueueH

variable {α : Type}

/-! ## Exceptions -/

/-- The exceptions thrown by `Queue.h`: `std::out_of_range` carrying its message. -/
inductive Exception where
  | out_of_range (what : String)
  deriving DecidableEq, Repr

/-! ## The backing container `std::deque<_Ty>` -/

/-- A `std::deque<_Ty>` value: its elements from front to back. -/
structure Deque (α : Type) where
  elems : List α
  deriving DecidableEq, Repr

/-- The member `std::deque::empty`. -/
def Deque.empty (d : Deque α) : Bool :=
  d.elems.isEmpty

/-- The member `std::deque::size`. -/
def Deque.size (d : Deque α) : Nat :=
  d.elems.length

/-- The member `std::deque::front`; the caller shows the deque is not empty. -/
def Deque.front (d : Deque α) (h : d.empty = false) : α :=
  d.elems.head (by intro hn; simp [Deque.empty, hn] at h)

/-- The member `std::deque::back`; the caller shows the deque is not empty. -/
def Deque.back (d : Deque α) (h : d.empty = false) : α :=
  d.elems.getLast (by intro hn; simp [Deque.empty, hn] at h)

/-- The member `std::deque::push_back` (copying and moving overloads store the same value). -/
def Deque.push_back (d : Deque α) (value : α) : Deque α :=
  ⟨d.elems ++ [value]⟩

/-- The member `std::deque::emplace_back`: builds the element from the constructor
arguments, appends it and returns (a reference to) it. -/
def Deque.emplace_back {A : Type} (d : Deque α) (ctor : A → α) (args : A) : α × Deque α :=
  (ctor args, ⟨d.elems ++ [ctor args]⟩)

/-- The member `std::deque::pop_front`; the caller shows the deque is not empty. -/
def Deque.pop_front (d : Deque α) (_h : d.empty = false) : Deque α :=
  ⟨d.elems.tail⟩

/-- The function `std::swap` on two deques: the pair of values after the exchange. -/
def Deque.swap (a b : Deque α) : Deque α × Deque α :=
  (b, a)

/-- The range comparison `std::equal` over two element sequences of the same length. -/
def Deque.equal [BEq α] : List α → List α → Bool
  | x :: xs, y :: ys => (x == y) && Deque.equal xs ys
  | _, _ => true

/-- The operator `==` of `std::deque`: same size and equal elements position by position. -/
def Deque.eq [BEq α] (a b : Deque α) : Bool :=
  a.size == b.size && Deque.equal a.elems b.elems

/-- The operator `!=` of `std::deque`: the negation of `==`. -/
def Deque.ne [BEq α] (a b : Deque α) : Bool :=
  !(Deque.eq a b)

/-! ## The class `Queue` -/

/-- The class `Queue<_Ty, _Container>`: its only data member is `_Container c{}`. -/
structure Queue (α : Type) where
  c : Deque α
  deriving DecidableEq, Repr

/-- The constructor `Queue() = default`: the member initialiser `c{}` gives an empty deque. -/
def Queue.new : Queue α :=
  ⟨⟨[]⟩⟩

/-- The constructors `Queue(const _Container& cont)` and `Queue(_Container&& cont)`:
the member `c` is initialised with the contents of `cont`. -/
def Queue.ofContainer (cont : Deque α) : Queue α :=
  ⟨cont⟩

/-- The copy constructor and copy assignment (`= default`): member-wise copy of `c`. -/
def Queue.copy (other : Queue α) : Queue α :=
  ⟨other.c⟩

/-- The non-const overload `front()`. -/
def Queue.front (q : Queue α) : Except Exception α × Queue α :=
  if h : q.c.empty then
    (.error (.out_of_range "queue::front(): empty queue"), q)
  else
    (.ok (q.c.front (by simpa using h)), q)

/-- The const overload `front() const`. -/
def Queue.front_const (q : Queue α) : Except Exception α :=
  if h : q.c.empty then
    .error (.out_of_range "queue::front(): empty queue")
  else
    .ok (q.c.front (by simpa using h))

/-- The non-const overload `back()`. -/
def Queue.back (q : Queue α) : Except Exception α × Queue α :=
  if h : q.c.empty then
    (.error (.out_of_range "queue::back(): empty queue"), q)
  else
    (.ok (q.c.back (by simpa using h)), q)

/-- The const overload `back() const`. -/
def Queue.back_const (q : Queue α) : Except Exception α :=
  if h : q.c.empty then
    .error (.out_of_range "queue::back(): empty queue")
  else
    .ok (q.c.back (by simpa using h))

/-- The member `empty() const noexcept`. -/
def Queue.empty (q : Queue α) : Bool :=
  q.c.empty

/-- The member `size() const noexcept`. -/
def Queue.size (q : Queue α) : Nat :=
  q.c.size

/-- The member `push(const value_type& value)`. -/
def Queue.push (q : Queue α) (value : α) : Except Exception Unit × Queue α :=
  (.ok (), ⟨q.c.push_back value⟩)

/-- The member `push(value_type&& value)`. -/
def Queue.push_move (q : Queue α) (value : α) : Except Exception Unit × Queue α :=
  (.ok (), ⟨q.c.push_back value⟩)

/-- The member `pop()`. -/
def Queue.pop (q : Queue α) : Except Exception Unit × Queue α :=
  if h : q.c.empty then
    (.error (.out_of_range "queue::pop(): empty queue"), q)
  else
    (.ok (), ⟨q.c.pop_front (by simpa using h)⟩)

/-- The member `swap(Queue& other)`: the state is the pair `(*this, other)`. -/
def Queue.swap (q other : Queue α) : Except Exception Unit × (Queue α × Queue α) :=
  let r := Deque.swap q.c other.c
  (.ok (), (⟨r.1⟩, ⟨r.2⟩))

/-- The members `container()` (const and non-const, both `noexcept`). -/
def Queue.container (q : Queue α) : Deque α :=
  q.c

/-- The member template `emplace(Args&&... args)`; `ctor` is the constructor of the element
type selected by the arguments. -/
def Queue.emplace {A : Type} (q : Queue α) (ctor : A → α) (args : A) :
    Except Exception α × Queue α :=
  let r := q.c.emplace_back ctor args
  (.ok r.1, ⟨r.2⟩)

/-- The free function `swap(lhs, rhs)`: the state is the pair `(lhs, rhs)`. -/
def swap (lhs rhs : Queue α) : Except Exception Unit × (Queue α × Queue α) :=
  lhs.swap rhs

/-- The operator `==` on queues. -/
def Queue.eq [BEq α] (lhs rhs : Queue α) : Except Exception Bool :=
  .ok (Deque.eq lhs.c rhs.c)

/-- The operator `!=` on queues. -/
def Queue.ne [BEq α] (lhs rhs : Queue α) : Except Exception Bool :=
  .ok (Deque.ne lhs.c rhs.c)

/-! ## Client programs

The specification speaks about sequences of calls made by a client.  The client catches the
exception of a failed call and goes on with the next call. -/

/-- One call of a client program: `push(value)` or `pop()`. -/
inductive Op (α : Type) where
  | push (value : α)
  | pop
  deriving DecidableEq, Repr

/-- The call `op` made on `q`: its result and the queue after it. -/
def Queue.apply (q : Queue α) : Op α → Except Exception Unit × Queue α
  | .push value => q.push value
  | .pop => q.pop

/-- The calls `ops` made on `q` one after the other: the log of every call with its
result, and the queue after the last call. -/
def Queue.run : Queue α → List (Op α) → List (Op α × Except Exception Unit) × Queue α
  | q, [] => ([], q)
  | q, op :: rest =>
    let r := q.apply op
    let t := Queue.run r.2 rest
    ((op, r.1) :: t.1, t.2)

/-- The values of the `push` calls of a program, in program order. -/
def pushedValues : List (Op α) → List α
  | [] => []
  | .push value :: rest => value :: pushedValues rest
  | .pop :: rest => pushedValues rest

/-- The number of `push` calls of a log that returned normally. -/
def okPushes : List (Op α × Except Exception Unit) → Nat
  | [] => 0
  | (.push _, .ok _) :: rest => okPushes rest + 1
  | _ :: rest => okPushes rest

/-- The number of `pop` calls of a log that returned normally. -/
def okPops : List (Op α × Except Exception Unit) → Nat
  | [] => 0
  | (.pop, .ok _) :: rest => okPops rest + 1
  | _ :: rest => okPops rest

/-- The number of `pop` calls of a log that threw. -/
def failedPops : List (Op α × Except Exception Unit) → Nat
  | [] => 0
  | (.pop, .error _) :: rest => failedPops rest + 1
  | _ :: rest => failedPops rest

/-- The client loop `for v in values: q.push(v)`: the results and the queue afterwards. -/
def Queue.pushAll : Queue α → List α → List (Except Exception Unit) × Queue α
  | q, [] => ([], q)
  | q, v :: rest =>
    let r := q.push v
    let t := Queue.pushAll r.2 rest
    (r.1 :: t.1, t.2)

/-- The client loop that `n` times reads `front()` and then calls `pop()`: for every round
the result of `front()` and the result of `pop()`, and the queue afterwards. -/
def Queue.popN : Queue α → Nat → List (Except Exception α × Except Exception Unit) × Queue α
  | q, 0 => ([], q)
  | q, n + 1 =>
    let f := q.front
    let r := f.2.pop
    let t := Queue.popN r.2 n
    ((f.1, r.1) :: t.1, t.2)

/-! ## Queue objects in memory

Two queue objects are independent when no call made on one of them writes storage that the
other one reads.  To state this, the objects are placed in a free store: a `std::deque`
object owns a block of element storage, and a member function called on a queue object
reads the value of the object from its block, runs, and writes the new value back into
that block. -/

/-- The free store: the blocks of element storage that deques own, addressed by index. -/
structure Heap (α : Type) where
  blocks : List (List α)
  deriving DecidableEq, Repr

/-- A `std::deque` object: the address of the block of element storage it owns. -/
structure DequeObj where
  storage : Nat
  deriving DecidableEq, Repr

/-- A `Queue` object: its data member `c`. -/
structure QueueObj where
  c : DequeObj
  deriving DecidableEq, Repr

/-- The value of a deque object: the elements in its block (`none` when the address is
not the address of a block). -/
def DequeObj.value (h : Heap α) (d : DequeObj) : Option (Deque α) :=
  match h.blocks[d.storage]? with
  | some elems => some ⟨elems⟩
  | none => none

/-- The store after a deque object has written the value `v` into its block. -/
def DequeObj.write (h : Heap α) (d : DequeObj) (v : Deque α) : Heap α :=
  ⟨h.blocks.set d.storage v.elems⟩

/-- The copy constructor of `std::deque`: the new deque owns a new block, filled with
copies of the elements of `other`. -/
def DequeObj.copy_construct (h : Heap α) (other : DequeObj) : Option (DequeObj × Heap α) :=
  match other.value h with
  | some v => some (⟨h.blocks.length⟩, ⟨h.blocks ++ [v.elems]⟩)
  | none => none

/-- The copy assignment of `std::deque`: the block of `self` receives copies of the
elements of `other`. -/
def DequeObj.copy_assign (h : Heap α) (self other : DequeObj) : Option (Heap α) :=
  match self.value h, other.value h with
  | some _, some v => some (self.write h v)
  | _, _ => none

/-- The value of a queue object: the value of its member `c`. -/
def QueueObj.value (h : Heap α) (q : QueueObj) : Option (Queue α) :=
  match q.c.value h with
  | some v => some ⟨v⟩
  | none => none

/-- The copy constructor `Queue(const Queue&) = default`: the member `c` of the new object
is copy-constructed from `other.c`. -/
def QueueObj.copy_construct (h : Heap α) (other : QueueObj) : Option (QueueObj × Heap α) :=
  match DequeObj.copy_construct h other.c with
  | some r => some (⟨r.1⟩, r.2)
  | none => none

/-- The copy assignment `operator=(const Queue&) = default`: `c = other.c`. -/
def QueueObj.copy_assign (h : Heap α) (self other : QueueObj) : Option (Heap α) :=
  DequeObj.copy_assign h self.c other.c

/-- The call `op` made on the queue object `q`: the member function runs on the value of
the object and the container it leaves is written back into the block of `q.c`. -/
def QueueObj.call (h : Heap α) (q : QueueObj) (op : Op α) :
    Option (Except Exception Unit × Heap α) :=
  match q.value h with
  | some v =>
    let r := v.apply op
    some (r.1, q.c.write h r.2.c)
  | none => none

/-- The calls `ops` made on the queue object `q` one after the other: the log of every
call with its result, and the store after the last call. -/
def QueueObj.run :
    Heap α → QueueObj → List (Op α) → Option (List (Op α × Except Exception Unit) × Heap α)
  | h, _, [] => some ([], h)
  | h, q, op :: rest =>
    match q.call h op with
    | some r =>
      match QueueObj.run r.2 q rest with
      | some t => some ((op, r.1) :: t.1, t.2)
      | none => none
    | none => none

/-! ## Appending when the container can fail

`std::deque::push_back` throws when it cannot allocate or when the construction of the new
element throws, and then leaves the deque as it was.  Whether it does so is decided outside
`Queue.h`; the definitions below take that decision as the argument `failure`. -/

/-- The failures of `std::deque::push_back`. -/
inductive AppendFailure where
  | bad_alloc
  | element_construction (what : String)
  deriving DecidableEq, Repr

/-- What the caller of a function observes: a normal return, an exception, or the end of
the program through `std::terminate`. -/
inductive Outcome (ε β σ : Type) where
  | returned (value : β) (state : σ)
  | threw (e : ε) (state : σ)
  | terminated
  deriving DecidableEq, Repr

/-- The exception specification `noexcept(cond)` put around a function body: an exception
that leaves the body of a function whose condition is true calls `std::terminate`. -/
def noexceptSpec {ε β σ : Type} (cond : Bool) (body : Except ε β × σ) : Outcome ε β σ :=
  match body.1 with
  | .ok value => .returned value body.2
  | .error e => if cond then .terminated else .threw e body.2

/-- The member `std::deque::push_back` of a deque that can fail: with `failure = some e` it
throws `e` and has no effect, with `failure = none` it appends. -/
def Deque.push_back_fallible {ε : Type} (failure : Option ε) (d : Deque α) (value : α) :
    Except ε Unit × Deque α :=
  match failure with
  | some e => (.error e, d)
  | none => (.ok (), d.push_back value)

/-- The member `push(const value_type& value)`, declared without `noexcept`, over a deque
that can fail. -/
def Queue.push_fallible {ε : Type} (failure : Option ε) (q : Queue α) (value : α) :
    Outcome ε Unit (Queue α) :=
  let r := q.c.push_back_fallible failure value
  noexceptSpec false (r.1, ⟨r.2⟩)

/-- The member `push(value_type&& value)`, declared
`noexcept(std::is_nothrow_move_constructible<value_type>::value)`, over a deque that can
fail; the trait of the element type is the argument `is_nothrow_move_constructible`. -/
def Queue.push_move_fallible {ε : Type} (is_nothrow_move_constructible : Bool)
    (failure : Option ε) (q : Queue α) (value : α) : Outcome ε Unit (Queue α) :=
  let r := q.c.push_back_fallible failure value
  noexceptSpec is_nothrow_move_constructible (r.1, ⟨r.2⟩)

/-! ## Basic facts about single calls -/

theorem Queue.eta (q : Queue α) : q = ⟨⟨q.c.elems⟩⟩ := rfl

theorem Queue.front_nil :
    Queue.front (⟨⟨[]⟩⟩ : Queue α)
      = (.error (.out_of_range "queue::front(): empty queue"), ⟨⟨[]⟩⟩) := by
  simp [Queue.front, Deque.empty]

theorem Queue.front_cons (x : α) (xs : List α) :
    Queue.front ⟨⟨x :: xs⟩⟩ = (.ok x, ⟨⟨x :: xs⟩⟩) := by
  simp [Queue.front, Deque.empty, Deque.front]

theorem Queue.front_const_nil :
    Queue.front_const (⟨⟨[]⟩⟩ : Queue α)
      = .error (.out_of_range "queue::front(): empty queue") := by
  simp [Queue.front_const, Deque.empty]

theorem Queue.front_const_cons (x : α) (xs : List α) :
    Queue.front_const ⟨⟨x :: xs⟩⟩ = .ok x := by
  simp [Queue.front_const, Deque.empty, Deque.front]

theorem Queue.back_nil :
    Queue.back (⟨⟨[]⟩⟩ : Queue α)
      = (.error (.out_of_range "queue::back(): empty queue"), ⟨⟨[]⟩⟩) := by
  simp [Queue.back, Deque.empty]

theorem Queue.back_cons (x : α) (xs : List α) :
    Queue.back ⟨⟨x :: xs⟩⟩ = (.ok ((x :: xs).getLast (by simp)), ⟨⟨x :: xs⟩⟩) := by
  simp [Queue.back, Deque.empty, Deque.back]

theorem Queue.back_const_nil :
    Queue.back_const (⟨⟨[]⟩⟩ : Queue α)
      = .error (.out_of_range "queue::back(): empty queue") := by
  simp [Queue.back_const, Deque.empty]

theorem Queue.back_const_cons (x : α) (xs : List α) :
    Queue.back_const ⟨⟨x :: xs⟩⟩ = .ok ((x :: xs).getLast (by simp)) := by
  simp [Queue.back_const, Deque.empty, Deque.back]

theorem Queue.pop_nil :
    Queue.pop (⟨⟨[]⟩⟩ : Queue α)
      = (.error (.out_of_range "queue::pop(): empty queue"), ⟨⟨[]⟩⟩) := by
  simp [Queue.pop, Deque.empty]

theorem Queue.pop_cons (x : α) (xs : List α) :
    Queue.pop ⟨⟨x :: xs⟩⟩ = (.ok (), ⟨⟨xs⟩⟩) := by
  simp [Queue.pop, Deque.empty, Deque.pop_front]

theorem Queue.push_mk (xs : List α) (v : α) :
    Queue.push ⟨⟨xs⟩⟩ v = (.ok (), ⟨⟨xs ++ [v]⟩⟩) := rfl

/-! ## Loops of calls -/

theorem Queue.pushAll_mk (xs vs : List α) :
    Queue.pushAll ⟨⟨xs⟩⟩ vs = (vs.map (fun _ => Except.ok ()), ⟨⟨xs ++ vs⟩⟩) := by
  induction vs generalizing xs with
  | nil => simp [Queue.pushAll]
  | cons v rest ih => simp [Queue.pushAll, Queue.push_mk, ih]

theorem Queue.popN_mk (xs : List α) (n : Nat) (hn : n ≤ xs.length) :
    Queue.popN ⟨⟨xs⟩⟩ n
      = ((xs.take n).map (fun v => (Except.ok v, Except.ok ())), ⟨⟨xs.drop n⟩⟩) := by
  induction n generalizing xs with
  | zero => simp [Queue.popN]
  | succ n ih =>
    cases xs with
    | nil => simp at hn
    | cons x rest =>
      have hr : n ≤ rest.length := by simpa using hn
      simp [Queue.popN, Queue.front_cons, Queue.pop_cons, ih rest hr]

/-- The invariant of a run started on any queue: the contents afterwards are the old
contents followed by the pushed values, without as many leading elements as pops
succeeded. -/
theorem Queue.run_elems (ops : List (Op α)) (xs : List α) :
    (Queue.run ⟨⟨xs⟩⟩ ops).2.c.elems
        = (xs ++ pushedValues ops).drop (okPops (Queue.run ⟨⟨xs⟩⟩ ops).1)
      ∧ okPops (Queue.run ⟨⟨xs⟩⟩ ops).1 ≤ (xs ++ pushedValues ops).length
      ∧ okPushes (Queue.run ⟨⟨xs⟩⟩ ops).1 = (pushedValues ops).length := by
  induction ops generalizing xs with
  | nil => simp [Queue.run, pushedValues, okPops, okPushes]
  | cons op rest ih =>
    cases op with
    | push v =>
      have h := ih (xs ++ [v])
      simp only [Queue.run, Queue.apply, Queue.push_mk, pushedValues, okPops, okPushes]
      simpa using h
    | pop =>
      cases xs with
      | nil =>
        have h := ih []
        simp only [Queue.run, Queue.apply, Queue.pop_nil, pushedValues, okPops, okPushes]
        simpa using h
      | cons x tl =>
        have h := ih tl
        simp only [Queue.run, Queue.apply, Queue.pop_cons, pushedValues, okPops, okPushes]
        simpa using h

/-! ## Verified properties -/

/-- C1 (strict FIFO order).  Starting from a default-constructed queue, pushing the values
`vs` one after the other succeeds every time; the `vs.length` rounds of `front()` followed
by `pop()` that come next all succeed, round `K` delivers the `K`-th pushed value, and the
queue is empty at the end.  After any number `K` of rounds the container holds exactly the
values not delivered yet, so the value `front()` showed is the one `pop()` removed. -/
theorem C1_strict_fifo (vs : List α) :
    Queue.pushAll Queue.new vs = (vs.map (fun _ => Except.ok ()), ⟨⟨vs⟩⟩)
      ∧ Queue.popN (Queue.pushAll Queue.new vs).2 vs.length
          = (vs.map (fun v => (Except.ok v, Except.ok ())), Queue.new)
      ∧ ∀ K : Nat, (Queue.popN (Queue.pushAll Queue.new vs).2 K).2.c.elems = vs.drop K := by
  have hp : Queue.pushAll Queue.new vs = (vs.map (fun _ => Except.ok ()), ⟨⟨vs⟩⟩) := by
    simpa [Queue.new] using Queue.pushAll_mk [] vs
  refine ⟨hp, ?_, ?_⟩
  · rw [hp]
    simpa [Queue.new] using Queue.popN_mk vs vs.length (Nat.le_refl _)
  · intro K
    rw [hp]
    rcases Nat.le_total K vs.length with hK | hK
    · simp [Queue.popN_mk vs K hK]
    · obtain ⟨m, rfl⟩ := Nat.exists_eq_add_of_le hK
      have hdrop : vs.drop (vs.length + m) = [] := by simp
      rw [hdrop]
      clear hK hp hdrop
      induction m with
      | zero => simp [Queue.popN_mk vs vs.length (Nat.le_refl _)]
      | succ m ih =>
        have hstep : ∀ (q : Queue α) (n : Nat),
            (Queue.popN q (n + 1)).2 = (Queue.popN (Queue.popN q n).2 1).2 := by
          intro q n
          induction n generalizing q with
          | zero => rfl
          | succ n ihn =>
            show (Queue.popN (q.front.2.pop).2 (n + 1)).2
                = (Queue.popN (Queue.popN (q.front.2.pop).2 n).2 1).2
            exact ihn _
        rw [← Nat.add_assoc, hstep]
        have hq := Queue.eta (Queue.popN (⟨⟨vs⟩⟩ : Queue α) (vs.length + m)).2
        rw [ih] at hq
        rw [hq]
        simp [Queue.popN, Queue.front_nil, Queue.pop_nil]

/-- C2 (FIFO invariant under interleaving).  After any program of `push` and `pop` calls
run on a default-constructed queue, the container holds the pushed values in push order
without the first `p` of them, `p` being the number of pops that succeeded.  When the
queue is then not empty, `front()` returns the pushed value number `p` (counting from 0),
which is the one the next `pop()` removes, and `back()` returns the last pushed value;
neither call changes the queue. -/
theorem C2_fifo_invariant (ops : List (Op α)) :
    (Queue.run Queue.new ops).2.c.elems
        = (pushedValues ops).drop (okPops (Queue.run Queue.new ops).1)
      ∧ ((Queue.run Queue.new ops).2.empty = false →
          ∃ x y : α,
            (pushedValues ops)[okPops (Queue.run Queue.new ops).1]? = some x
              ∧ (pushedValues ops).getLast? = some y
              ∧ (Queue.run Queue.new ops).2.front = (.ok x, (Queue.run Queue.new ops).2)
              ∧ (Queue.run Queue.new ops).2.back = (.ok y, (Queue.run Queue.new ops).2)
              ∧ (Queue.run Queue.new ops).2.pop
                  = (.ok (),
                      ⟨⟨(pushedValues ops).drop
                          (okPops (Queue.run Queue.new ops).1 + 1)⟩⟩)) := by
  obtain ⟨h1, h2, -⟩ := Queue.run_elems ops ([] : List α)
  simp only [List.nil_append] at h1 h2
  have hnew : (Queue.new : Queue α) = ⟨⟨[]⟩⟩ := rfl
  rw [hnew]
  refine ⟨h1, ?_⟩
  intro hne
  generalize hq : (Queue.run (⟨⟨[]⟩⟩ : Queue α) ops).2 = q at h1 hne ⊢
  generalize hk : okPops (Queue.run (⟨⟨[]⟩⟩ : Queue α) ops).1 = p at h1 h2 ⊢
  generalize pushedValues ops = vs at h1 h2 ⊢
  obtain ⟨⟨xs⟩⟩ := q
  simp only at h1
  cases xs with
  | nil => simp [Queue.empty, Deque.empty] at hne
  | cons x tl =>
    have hlt : p < vs.length := by
      rcases Nat.lt_or_ge p vs.length with h | h
      · exact h
      · rw [List.drop_eq_nil_of_le h] at h1
        cases h1
    have hx : vs[p]? = some x := by
      have := List.head?_drop vs p
      rw [← h1] at this
      simpa using this.symm
    have htl : vs.drop (p + 1) = tl := by
      rw [← List.tail_drop, ← h1]
      rfl
    have hlast : vs.getLast? = (x :: tl).getLast? := by
      have := List.getLast?_drop (l := vs) (n := p)
      rw [← h1, if_neg (Nat.not_le.mpr hlt)] at this
      exact this.symm
    refine ⟨x, (x :: tl).getLast (by simp), hx, ?_, ?_, ?_, ?_⟩
    · rw [hlast]
      exact List.getLast?_eq_getLast _ _
    · exact Queue.front_cons x tl
    · exact Queue.back_cons x tl
    · rw [htl]
      exact Queue.pop_cons x tl

/-- Witness of C2 on the program push 1, push 2, pop, pop, pop, push 3, push 4, pop. -/
theorem C2_fifo_invariant_witness :
    (Queue.run (Queue.new : Queue Nat)
        [.push 1, .push 2, .pop, .pop, .pop, .push 3, .push 4, .pop]).2.empty = false
      ∧ ∃ x y : Nat,
          (pushedValues
              ([.push 1, .push 2, .pop, .pop, .pop, .push 3, .push 4, .pop] : List (Op Nat)))[
                okPops (Queue.run (Queue.new : Queue Nat)
                  [.push 1, .push 2, .pop, .pop, .pop, .push 3, .push 4, .pop]).1]? = some x
            ∧ (pushedValues
                ([.push 1, .push 2, .pop, .pop, .pop, .push 3, .push 4, .pop]
                  : List (Op Nat))).getLast? = some y
            ∧ (Queue.run (Queue.new : Queue Nat)
                [.push 1, .push 2, .pop, .pop, .pop, .push 3, .push 4, .pop]).2.front
                = (.ok x, (Queue.run (Queue.new : Queue Nat)
                    [.push 1, .push 2, .pop, .pop, .pop, .push 3, .push 4, .pop]).2)
            ∧ (Queue.run (Queue.new : Queue Nat)
                [.push 1, .push 2, .pop, .pop, .pop, .push 3, .push 4, .pop]).2.back
                = (.ok y, (Queue.run (Queue.new : Queue Nat)
                    [.push 1, .push 2, .pop, .pop, .pop, .push 3, .push 4, .pop]).2)
            ∧ (Queue.run (Queue.new : Queue Nat)
                [.push 1, .push 2, .pop, .pop, .pop, .push 3, .push 4, .pop]).2.pop
                = (.ok (),
                    ⟨⟨(pushedValues
                        ([.push 1, .push 2, .pop, .pop, .pop, .push 3, .push 4, .pop]
                          : List (Op Nat))).drop
                        (okPops (Queue.run (Queue.new : Queue Nat)
                          [.push 1, .push 2, .pop, .pop, .pop, .push 3, .push 4, .pop]).1
                            + 1)⟩⟩) :=
  ⟨by decide,
    (C2_fifo_invariant
      ([.push 1, .push 2, .pop, .pop, .pop, .push 3, .push 4, .pop] : List (Op Nat))).2
      (by decide)⟩

/-- C3 (empty access fails atomically).  On a queue with `size() == 0` the calls
`front()`, `back()` (both overloads of each) and `pop()` throw `std::out_of_range`, and the
queue after the failed call is the queue before it: its container holds no element,
`size()` is 0 and `empty()` is true. -/
theorem C3_empty_access_atomic (q : Queue α) (h : q.size = 0) :
    q.front = (.error (.out_of_range "queue::front(): empty queue"), q)
      ∧ q.front_const = .error (.out_of_range "queue::front(): empty queue")
      ∧ q.back = (.error (.out_of_range "queue::back(): empty queue"), q)
      ∧ q.back_const = .error (.out_of_range "queue::back(): empty queue")
      ∧ q.pop = (.error (.out_of_range "queue::pop(): empty queue"), q)
      ∧ ∀ s ∈ [q.front.2, q.back.2, q.pop.2],
          s = q ∧ s.c.elems = [] ∧ s.size = 0 ∧ s.empty = true := by
  obtain ⟨⟨xs⟩⟩ := q
  have hxs : xs = [] := by simpa [Queue.size, Deque.size] using h
  subst hxs
  refine ⟨Queue.front_nil, Queue.front_const_nil, Queue.back_nil, Queue.back_const_nil,
    Queue.pop_nil, ?_⟩
  intro s hs
  simp only [Queue.front_nil, Queue.back_nil, Queue.pop_nil, List.mem_cons,
    List.mem_singleton, List.not_mem_nil, or_false, or_self] at hs
  subst hs
  simp [Queue.size, Queue.empty, Deque.size, Deque.empty]

/-- Witness of C3 on the default-constructed queue of naturals. -/
theorem C3_empty_access_atomic_witness :
    (Queue.new : Queue Nat).size = 0
      ∧ (Queue.new : Queue Nat).pop
          = (.error (.out_of_range "queue::pop(): empty queue"), Queue.new) :=
  ⟨rfl, (C3_empty_access_atomic (Queue.new : Queue Nat) rfl).2.2.2.2.1⟩

/-- C4 (the empty-queue error is the only error, raised exactly on an empty queue).
Each of `front()`, `back()` (both overloads) and `pop()` throws its `std::out_of_range`
exactly when `size() == 0` and returns normally exactly when `size() != 0`; `push` (both
overloads), `emplace`, `swap` (member and free function), `==` and `!=` return normally on
every queue.  (`empty()`, `size()` and `container()` are `noexcept` and have no error
channel.) -/
theorem C4_only_error [BEq α] (q : Queue α) :
    ((q.front.1 = .error (.out_of_range "queue::front(): empty queue") ↔ q.size = 0)
        ∧ (q.front.1.isOk = true ↔ q.size ≠ 0))
      ∧ ((q.front_const = .error (.out_of_range "queue::front(): empty queue") ↔ q.size = 0)
        ∧ (q.front_const.isOk = true ↔ q.size ≠ 0))
      ∧ ((q.back.1 = .error (.out_of_range "queue::back(): empty queue") ↔ q.size = 0)
        ∧ (q.back.1.isOk = true ↔ q.size ≠ 0))
      ∧ ((q.back_const = .error (.out_of_range "queue::back(): empty queue") ↔ q.size = 0)
        ∧ (q.back_const.isOk = true ↔ q.size ≠ 0))
      ∧ ((q.pop.1 = .error (.out_of_range "queue::pop(): empty queue") ↔ q.size = 0)
        ∧ (q.pop.1.isOk = true ↔ q.size ≠ 0))
      ∧ (∀ v : α, (q.push v).1 = .ok () ∧ (q.push_move v).1 = .ok ())
      ∧ (∀ (A : Type) (ctor : A → α) (args : A), (q.emplace ctor args).1 = .ok (ctor args))
      ∧ (∀ other : Queue α,
          (q.swap other).1 = .ok () ∧ (swap q other).1 = .ok ()
            ∧ (q.eq other).isOk = true ∧ (q.ne other).isOk = true) := by
  obtain ⟨⟨xs⟩⟩ := q
  refine ⟨?_, ?_, ?_, ?_, ?_, fun _ => ⟨rfl, rfl⟩, fun _ _ _ => rfl,
    fun _ => ⟨rfl, rfl, rfl, rfl⟩⟩
  · cases xs with
    | nil => simp [Queue.front_nil, Queue.size, Deque.size, Except.isOk, Except.toBool]
    | cons x tl =>
      simp [Queue.front_cons, Queue.size, Deque.size, Except.isOk, Except.toBool]
  · cases xs with
    | nil => simp [Queue.front_const_nil, Queue.size, Deque.size, Except.isOk, Except.toBool]
    | cons x tl =>
      simp [Queue.front_const_cons, Queue.size, Deque.size, Except.isOk, Except.toBool]
  · cases xs with
    | nil => simp [Queue.back_nil, Queue.size, Deque.size, Except.isOk, Except.toBool]
    | cons x tl =>
      simp [Queue.back_cons, Queue.size, Deque.size, Except.isOk, Except.toBool]
  · cases xs with
    | nil => simp [Queue.back_const_nil, Queue.size, Deque.size, Except.isOk, Except.toBool]
    | cons x tl =>
      simp [Queue.back_const_cons, Queue.size, Deque.size, Except.isOk, Except.toBool]
  · cases xs with
    | nil => simp [Queue.pop_nil, Queue.size, Deque.size, Except.isOk, Except.toBool]
    | cons x tl =>
      simp [Queue.pop_cons, Queue.size, Deque.size, Except.isOk, Except.toBool]

/-- C5 (size accounting).  After any program of `push` and `pop` calls run on a
default-constructed queue, `size()` is the number of pushes minus the number of pops that
succeeded; every push of the program succeeded, and the subtraction does not truncate. -/
theorem C5_size_accounting (ops : List (Op α)) :
    (Queue.run Queue.new ops).2.size
        = okPushes (Queue.run Queue.new ops).1 - okPops (Queue.run Queue.new ops).1
      ∧ okPops (Queue.run Queue.new ops).1 ≤ okPushes (Queue.run Queue.new ops).1
      ∧ okPushes (Queue.run Queue.new ops).1 = (pushedValues ops).length := by
  obtain ⟨h1, h2, h3⟩ := Queue.run_elems ops ([] : List α)
  simp only [List.nil_append] at h1 h2
  have hnew : (Queue.new : Queue α) = ⟨⟨[]⟩⟩ := rfl
  rw [hnew, h3]
  refine ⟨?_, h2, rfl⟩
  simp [Queue.size, Deque.size, h1]

/-- C6.  On every queue `empty()` is true exactly when `size()` is 0. -/
theorem C6_empty_iff_size_zero (q : Queue α) :
    q.empty = true ↔ q.size = 0 := by
  obtain ⟨⟨xs⟩⟩ := q
  cases xs <;> simp [Queue.empty, Queue.size, Deque.empty, Deque.size]

/-- C7 (push postcondition).  On every queue `push(v)`, by copy or by transfer, returns
normally and leaves the container equal to the old contents followed by `v`: `size()` grows
by exactly one, `back()` returns `v`, the old elements keep their positions, and `front()`
returns what it returned before when the queue was not empty and `v` when it was. -/
theorem C7_push_postcondition (q : Queue α) (v : α) :
    (q.push v).1 = .ok ()
      ∧ (q.push v).2.c.elems = q.c.elems ++ [v]
      ∧ (q.push v).2.size = q.size + 1
      ∧ (q.push v).2.back = (.ok v, (q.push v).2)
      ∧ (q.push v).2.c.elems.take q.size = q.c.elems
      ∧ (q.push v).2.front.1 = (if q.empty then .ok v else q.front.1)
      ∧ q.push_move v = q.push v := by
  obtain ⟨⟨xs⟩⟩ := q
  refine ⟨rfl, rfl, ?_, ?_, ?_, ?_, rfl⟩
  · simp [Queue.push_mk, Queue.size, Deque.size]
  · rw [Queue.push_mk]
    cases hys : xs ++ [v] with
    | nil => simp at hys
    | cons y ys =>
      rw [Queue.back_cons]
      simp [← hys]
  · simp [Queue.push_mk, Queue.size, Deque.size]
  · cases xs with
    | nil => simp [Queue.push_mk, Queue.front_cons, Queue.empty, Deque.empty]
    | cons x tl => simp [Queue.push_mk, Queue.front_cons, Queue.empty, Deque.empty]

/-- C8 (pop postcondition).  On every queue that is not empty `pop()` returns normally and
leaves the container equal to the old contents without their first element: `size()`
shrinks by exactly one, the removed element is the one `front()` returned before the call,
and when at least two elements were stored `back()` returns what it returned before and
`front()` returns the former second element. -/
theorem C8_pop_postcondition (q : Queue α) (h : q.empty = false) :
    q.pop.1 = .ok ()
      ∧ q.pop.2.c.elems = q.c.elems.tail
      ∧ q.pop.2.size + 1 = q.size
      ∧ q.pop.2.size = q.size - 1
      ∧ (∃ x : α, q.front = (.ok x, q) ∧ q.c.elems = x :: q.pop.2.c.elems)
      ∧ (2 ≤ q.size →
          q.pop.2.back.1 = q.back.1
            ∧ ∃ y : α, q.c.elems[1]? = some y ∧ q.pop.2.front = (.ok y, q.pop.2)) := by
  obtain ⟨⟨xs⟩⟩ := q
  cases xs with
  | nil => simp [Queue.empty, Deque.empty] at h
  | cons x tl =>
    rw [Queue.pop_cons]
    refine ⟨rfl, rfl, ?_, ?_, ⟨x, Queue.front_cons x tl, rfl⟩, ?_⟩
    · simp [Queue.size, Deque.size]
    · simp [Queue.size, Deque.size]
    · intro h2
      cases tl with
      | nil => simp [Queue.size, Deque.size] at h2
      | cons y ys =>
        refine ⟨?_, y, by simp, Queue.front_cons y ys⟩
        simp [Queue.back_cons]

/-- Witness of C8 on the queue holding 5, 6, 7. -/
theorem C8_pop_postcondition_witness :
    (⟨⟨[5, 6, 7]⟩⟩ : Queue Nat).empty = false
      ∧ (⟨⟨[5, 6, 7]⟩⟩ : Queue Nat).pop.1 = .ok ()
      ∧ (⟨⟨[5, 6, 7]⟩⟩ : Queue Nat).pop.2.c.elems = ([5, 6, 7] : List Nat).tail
      ∧ 2 ≤ (⟨⟨[5, 6, 7]⟩⟩ : Queue Nat).size
      ∧ (⟨⟨[5, 6, 7]⟩⟩ : Queue Nat).pop.2.back.1 = (⟨⟨[5, 6, 7]⟩⟩ : Queue Nat).back.1 :=
  ⟨rfl, (C8_pop_postcondition ⟨⟨[5, 6, 7]⟩⟩ rfl).1, (C8_pop_postcondition ⟨⟨[5, 6, 7]⟩⟩ rfl).2.1,
    by decide,
    ((C8_pop_postcondition ⟨⟨[5, 6, 7]⟩⟩ rfl).2.2.2.2.2 (by decide)).1⟩

/-- C9 (scenario of the specification).  On a default-constructed queue of integers, after
`push(1)`, `push(2)`, `push(3)`: `size() == 3`, `front() == 1`, `back() == 3`; one `pop()`
removes the 1 and then `size() == 2`, `front() == 2`; after two more `pop()` calls
`size() == 0`; a fourth `pop()` throws `std::out_of_range` and leaves the queue empty. -/
theorem C9_scenario :
    Queue.run (Queue.new : Queue Int) [.push 1, .push 2, .push 3]
        = ([(.push 1, .ok ()), (.push 2, .ok ()), (.push 3, .ok ())], ⟨⟨[1, 2, 3]⟩⟩)
      ∧ (⟨⟨[1, 2, 3]⟩⟩ : Queue Int).size = 3
      ∧ (⟨⟨[1, 2, 3]⟩⟩ : Queue Int).front.1 = .ok 1
      ∧ (⟨⟨[1, 2, 3]⟩⟩ : Queue Int).back.1 = .ok 3
      ∧ (⟨⟨[1, 2, 3]⟩⟩ : Queue Int).pop = (.ok (), ⟨⟨[2, 3]⟩⟩)
      ∧ (⟨⟨[2, 3]⟩⟩ : Queue Int).size = 2
      ∧ (⟨⟨[2, 3]⟩⟩ : Queue Int).front.1 = .ok 2
      ∧ Queue.run (⟨⟨[2, 3]⟩⟩ : Queue Int) [.pop, .pop]
          = ([(.pop, .ok ()), (.pop, .ok ())], ⟨⟨[]⟩⟩)
      ∧ (⟨⟨[]⟩⟩ : Queue Int).size = 0
      ∧ (⟨⟨[]⟩⟩ : Queue Int).pop
          = (.error (.out_of_range "queue::pop(): empty queue"), ⟨⟨[]⟩⟩)
      ∧ (Queue.run (Queue.new : Queue Int)
            [.push 1, .push 2, .push 3, .pop, .pop, .pop, .pop]).1.map Prod.snd
          = [.ok (), .ok (), .ok (), .ok (), .ok (), .ok (),
              .error (.out_of_range "queue::pop(): empty queue")] := by
  refine ⟨rfl, rfl, rfl, rfl, rfl, rfl, rfl, rfl, rfl, rfl, rfl⟩

/-- C10 (swap exchanges contents).  After `a.swap(b)`, and after the free function
`swap(a, b)`, which return normally, the first queue holds exactly the former contents of
the second and the second exactly the former contents of the first, in the same order. -/
theorem C10_swap_exchanges (a b : Queue α) :
    a.swap b = (.ok (), (b, a))
      ∧ swap a b = (.ok (), (b, a))
      ∧ (a.swap b).2.1.c.elems = b.c.elems ∧ (a.swap b).2.2.c.elems = a.c.elems
      ∧ (swap a b).2.1.c.elems = b.c.elems ∧ (swap a b).2.2.c.elems = a.c.elems := by
  refine ⟨rfl, rfl, rfl, rfl, rfl, rfl⟩

/-! ## Facts about the comparison of containers -/

theorem Deque.equal_self [BEq α] (hr : ∀ x : α, (x == x) = true) (xs : List α) :
    Deque.equal xs xs = true := by
  induction xs with
  | nil => rfl
  | cons x tl ih => simp [Deque.equal, hr, ih]

theorem Deque.equal_iff [BEq α] (xs ys : List α) (h : xs.length = ys.length) :
    Deque.equal xs ys = true
      ↔ ∀ (i : Nat) (x y : α), xs[i]? = some x → ys[i]? = some y → (x == y) = true := by
  induction xs generalizing ys with
  | nil => simp [Deque.equal]
  | cons x tl ih =>
    cases ys with
    | nil => simp at h
    | cons y ys =>
      have hl : tl.length = ys.length := by simpa using h
      simp only [Deque.equal, Bool.and_eq_true, ih ys hl]
      constructor
      · rintro ⟨hxy, hrest⟩ i a b ha hb
        cases i with
        | zero =>
          simp only [List.getElem?_cons_zero, Option.some.injEq] at ha hb
          subst ha
          subst hb
          exact hxy
        | succ i =>
          simp only [List.getElem?_cons_succ] at ha hb
          exact hrest i a b ha hb
      · intro hall
        refine ⟨hall 0 x y (by simp) (by simp), ?_⟩
        intro i a b ha hb
        exact hall (i + 1) a b (by simpa using ha) (by simpa using hb)

theorem Deque.equal_append_singleton [BEq α] (xs ys : List α) (v w : α)
    (h : xs.length = ys.length) :
    Deque.equal (xs ++ [v]) (ys ++ [w]) = (Deque.equal xs ys && (v == w)) := by
  induction xs generalizing ys with
  | nil =>
    cases ys with
    | nil => simp [Deque.equal]
    | cons y ys => simp at h
  | cons x tl ih =>
    cases ys with
    | nil => simp at h
    | cons y ys =>
      have hl : tl.length = ys.length := by simpa using h
      simp [Deque.equal, ih ys hl, Bool.and_assoc]

theorem Deque.eq_iff [BEq α] (a b : Deque α) :
    Deque.eq a b = true
      ↔ a.size = b.size
        ∧ ∀ (i : Nat) (x y : α),
            a.elems[i]? = some x → b.elems[i]? = some y → (x == y) = true := by
  unfold Deque.eq
  rw [Bool.and_eq_true]
  constructor
  · rintro ⟨hs, he⟩
    have hs2 : a.size = b.size := by simpa using hs
    exact ⟨hs2, (Deque.equal_iff a.elems b.elems hs2).mp he⟩
  · rintro ⟨hs, he⟩
    exact ⟨by simpa using hs, (Deque.equal_iff a.elems b.elems hs).mpr he⟩

theorem Deque.eq_self [BEq α] (hr : ∀ x : α, (x == x) = true) (d : Deque α) :
    Deque.eq d d = true := by
  simp [Deque.eq, Deque.equal_self hr]

theorem Deque.size_eq_of_eq [BEq α] (a b : Deque α) (h : Deque.eq a b = true) :
    a.elems.length = b.elems.length :=
  ((Deque.eq_iff a b).mp h).1

/-! ## Verified properties: swap twice, comparison, copies, construction -/

/-- C11 (swap is an involution).  Two calls of `swap(a, b)` in a row, as free function or
as member, both return normally and leave the pair of queues exactly as it was before the
first call; when the `==` of the element type is reflexive, each queue then compares equal
to its value before the swaps. -/
theorem C11_swap_involution [BEq α] (a b : Queue α) :
    (swap a b).1 = .ok ()
      ∧ swap (swap a b).2.1 (swap a b).2.2 = (.ok (), (a, b))
      ∧ (a.swap b).2.1.swap (a.swap b).2.2 = (.ok (), (a, b))
      ∧ ((∀ x : α, (x == x) = true) →
          Queue.eq (swap (swap a b).2.1 (swap a b).2.2).2.1 a = .ok true
            ∧ Queue.eq (swap (swap a b).2.1 (swap a b).2.2).2.2 b = .ok true) := by
  refine ⟨rfl, rfl, rfl, ?_⟩
  intro hr
  exact ⟨congrArg Except.ok (Deque.eq_self hr a.c), congrArg Except.ok (Deque.eq_self hr b.c)⟩

/-- Witness of C11 on the queues of naturals holding 1, 2 and 3. -/
theorem C11_swap_involution_witness :
    (∀ x : Nat, (x == x) = true)
      ∧ Queue.eq (swap (swap (⟨⟨[1, 2]⟩⟩ : Queue Nat) ⟨⟨[3]⟩⟩).2.1
            (swap (⟨⟨[1, 2]⟩⟩ : Queue Nat) ⟨⟨[3]⟩⟩).2.2).2.1 ⟨⟨[1, 2]⟩⟩ = .ok true
      ∧ Queue.eq (swap (swap (⟨⟨[1, 2]⟩⟩ : Queue Nat) ⟨⟨[3]⟩⟩).2.1
            (swap (⟨⟨[1, 2]⟩⟩ : Queue Nat) ⟨⟨[3]⟩⟩).2.2).2.2 ⟨⟨[3]⟩⟩ = .ok true :=
  ⟨fun x => by simp,
    (C11_swap_involution (⟨⟨[1, 2]⟩⟩ : Queue Nat) ⟨⟨[3]⟩⟩).2.2.2 (fun x => by simp)⟩

/-- C12 (equality is element-wise sequence equality).  The comparison `a == b` returns
normally, and it returns true exactly when both queues hold the same number of elements
and the elements at every position compare equal with the `==` of the element type.  It is
reflexive, symmetric and transitive on queues whenever the `==` of the element type is. -/
theorem C12_eq_elementwise [BEq α] (a b : Queue α) :
    (∃ r : Bool, Queue.eq a b = .ok r)
      ∧ (Queue.eq a b = .ok true
          ↔ a.size = b.size
            ∧ ∀ (i : Nat) (x y : α),
                a.c.elems[i]? = some x → b.c.elems[i]? = some y → (x == y) = true)
      ∧ ((∀ x : α, (x == x) = true) → Queue.eq a a = .ok true)
      ∧ ((∀ x y : α, (x == y) = true → (y == x) = true) →
          Queue.eq a b = .ok true → Queue.eq b a = .ok true)
      ∧ ((∀ x y z : α, (x == y) = true → (y == z) = true → (x == z) = true) →
          ∀ c : Queue α,
            Queue.eq a b = .ok true → Queue.eq b c = .ok true → Queue.eq a c = .ok true) := by
  have key : ∀ p q : Queue α, Queue.eq p q = .ok true ↔ Deque.eq p.c q.c = true := by
    intro p q
    simp [Queue.eq]
  refine ⟨⟨_, rfl⟩, ?_, ?_, ?_, ?_⟩
  · rw [key, Deque.eq_iff]
    rfl
  · intro hr
    exact (key a a).mpr (Deque.eq_self hr a.c)
  · intro hs hab
    rw [key, Deque.eq_iff] at hab ⊢
    obtain ⟨hsz, hel⟩ := hab
    exact ⟨hsz.symm, fun i x y hx hy => hs y x (hel i y x hy hx)⟩
  · intro ht c hab hbc
    rw [key, Deque.eq_iff] at hab hbc ⊢
    obtain ⟨hsz1, hel1⟩ := hab
    obtain ⟨hsz2, hel2⟩ := hbc
    refine ⟨hsz1.trans hsz2, ?_⟩
    intro i x z hx hz
    have hi : i < a.c.elems.length := by
      rcases Nat.lt_or_ge i a.c.elems.length with h | h
      · exact h
      · rw [List.getElem?_eq_none h] at hx
        cases hx
    have hib : i < b.c.elems.length := by
      have : a.c.elems.length = b.c.elems.length := hsz1
      omega
    have hy : b.c.elems[i]? = some (b.c.elems.get ⟨i, hib⟩) := by
      simp [List.getElem?_eq_getElem hib]
    exact ht x _ z (hel1 i x _ hx hy) (hel2 i _ z hy hz)

/-- Witness of C12 on the queue of naturals holding 1, 2. -/
theorem C12_eq_elementwise_witness :
    (∀ x : Nat, (x == x) = true)
      ∧ Queue.eq (⟨⟨[1, 2]⟩⟩ : Queue Nat) ⟨⟨[1, 2]⟩⟩ = .ok true
      ∧ (∀ x y : Nat, (x == y) = true → (y == x) = true)
      ∧ (∀ x y z : Nat, (x == y) = true → (y == z) = true → (x == z) = true)
      ∧ (Queue.eq (⟨⟨[1, 2]⟩⟩ : Queue Nat) ⟨⟨[1, 2]⟩⟩ = .ok true
          → Queue.eq (⟨⟨[1, 2]⟩⟩ : Queue Nat) ⟨⟨[1, 2]⟩⟩ = .ok true) :=
  ⟨fun x => by simp,
    (C12_eq_elementwise (⟨⟨[1, 2]⟩⟩ : Queue Nat) ⟨⟨[1, 2]⟩⟩).2.2.1 (fun x => by simp),
    fun x y h => by simp at h ⊢; omega,
    fun x y z h1 h2 => by simp at h1 h2 ⊢; omega,
    fun h =>
      (C12_eq_elementwise (⟨⟨[1, 2]⟩⟩ : Queue Nat) ⟨⟨[1, 2]⟩⟩).2.2.2.2
        (fun x y z h1 h2 => by simp at h1 h2 ⊢; omega) ⟨⟨[1, 2]⟩⟩ h
        ((C12_eq_elementwise (⟨⟨[1, 2]⟩⟩ : Queue Nat) ⟨⟨[1, 2]⟩⟩).2.2.2.1
          (fun x y h => by simp at h ⊢; omega) h)⟩

/-- C13 (equal containers give equal queues; one differing call makes them unequal).  Two
queues constructed from containers that compare equal compare equal (`==` true, `!=`
false), and so do two queues constructed from the same contents when the `==` of the
element type is reflexive.  From two such equal queues, a push on only one of them, a
successful pop on only one of them, or a push on each with two values that do not compare
equal, yields queues that compare unequal (`==` false, `!=` true). -/
theorem C13_equal_then_differ [BEq α] (c1 c2 : Deque α) (h : Deque.eq c1 c2 = true) :
    (Queue.eq (Queue.ofContainer c1) (Queue.ofContainer c2) = .ok true
        ∧ Queue.ne (Queue.ofContainer c1) (Queue.ofContainer c2) = .ok false)
      ∧ ((∀ x : α, (x == x) = true) →
          Queue.eq (Queue.ofContainer c1) (Queue.ofContainer c1) = .ok true)
      ∧ (∀ v : α,
          Queue.eq ((Queue.ofContainer c1).push v).2 (Queue.ofContainer c2) = .ok false
            ∧ Queue.ne ((Queue.ofContainer c1).push v).2 (Queue.ofContainer c2) = .ok true
            ∧ Queue.eq (Queue.ofContainer c1) ((Queue.ofContainer c2).push v).2 = .ok false
            ∧ Queue.ne (Queue.ofContainer c1) ((Queue.ofContainer c2).push v).2 = .ok true)
      ∧ ((Queue.ofContainer c1).pop.1 = .ok () →
          Queue.eq (Queue.ofContainer c1).pop.2 (Queue.ofContainer c2) = .ok false
            ∧ Queue.ne (Queue.ofContainer c1).pop.2 (Queue.ofContainer c2) = .ok true)
      ∧ ((Queue.ofContainer c2).pop.1 = .ok () →
          Queue.eq (Queue.ofContainer c1) (Queue.ofContainer c2).pop.2 = .ok false
            ∧ Queue.ne (Queue.ofContainer c1) (Queue.ofContainer c2).pop.2 = .ok true)
      ∧ (∀ v w : α, (v == w) = false →
          Queue.eq ((Queue.ofContainer c1).push v).2 ((Queue.ofContainer c2).push w).2
              = .ok false
            ∧ Queue.ne ((Queue.ofContainer c1).push v).2 ((Queue.ofContainer c2).push w).2
              = .ok true) := by
  have hl := Deque.size_eq_of_eq c1 c2 h
  obtain ⟨xs⟩ := c1
  obtain ⟨ys⟩ := c2
  simp only at hl
  have he : Deque.equal xs ys = true := by
    have := h
    simp only [Deque.eq, Bool.and_eq_true] at this
    exact this.2
  refine ⟨?_, ?_, ?_, ?_, ?_, ?_⟩
  · simp [Queue.eq, Queue.ne, Deque.ne, Queue.ofContainer, h]
  · intro hr
    exact congrArg Except.ok (Deque.eq_self hr _)
  · intro v
    simp [Queue.eq, Queue.ne, Deque.ne, Deque.eq, Deque.size, Queue.push, Deque.push_back,
      Queue.ofContainer, hl]
  · intro hp
    cases xs with
    | nil => simp [Queue.ofContainer, Queue.pop_nil] at hp
    | cons x tl =>
      have hl2 : ys.length = tl.length + 1 := by simpa using hl.symm
      simp [Queue.ofContainer, Queue.pop_cons, Queue.eq, Queue.ne, Deque.ne, Deque.eq,
        Deque.size, hl2]
  · intro hp
    cases ys with
    | nil => simp [Queue.ofContainer, Queue.pop_nil] at hp
    | cons y tl =>
      have hl2 : xs.length = tl.length + 1 := by simpa using hl
      simp [Queue.ofContainer, Queue.pop_cons, Queue.eq, Queue.ne, Deque.ne, Deque.eq,
        Deque.size, hl2]
  · intro v w hvw
    simp [Queue.eq, Queue.ne, Deque.ne, Deque.eq, Deque.size, Queue.push, Deque.push_back,
      Queue.ofContainer, Deque.equal_append_singleton xs ys v w hl, hvw]

/-- Witness of C13 on two containers of naturals that both hold 1, 2. -/
theorem C13_equal_then_differ_witness :
    Deque.eq (⟨[1, 2]⟩ : Deque Nat) ⟨[1, 2]⟩ = true
      ∧ (Queue.ofContainer (⟨[1, 2]⟩ : Deque Nat)).pop.1 = .ok ()
      ∧ Queue.eq (Queue.ofContainer (⟨[1, 2]⟩ : Deque Nat)).pop.2
          (Queue.ofContainer ⟨[1, 2]⟩) = .ok false
      ∧ ((7 : Nat) == 8) = false
      ∧ Queue.eq ((Queue.ofContainer (⟨[1, 2]⟩ : Deque Nat)).push 7).2
          ((Queue.ofContainer (⟨[1, 2]⟩ : Deque Nat)).push 8).2 = .ok false :=
  ⟨by decide, rfl,
    ((C13_equal_then_differ (⟨[1, 2]⟩ : Deque Nat) ⟨[1, 2]⟩ (by decide)).2.2.2.1 rfl).1,
    by decide,
    ((C13_equal_then_differ (⟨[1, 2]⟩ : Deque Nat) ⟨[1, 2]⟩ (by decide)).2.2.2.2.2
      7 8 (by decide)).1⟩

/-! ## Facts about queue objects in memory -/

theorem QueueObj.value_iff (h : Heap α) (q : QueueObj) (v : Queue α) :
    q.value h = some v ↔ h.blocks[q.c.storage]? = some v.c.elems := by
  obtain ⟨⟨xs⟩⟩ := v
  unfold QueueObj.value DequeObj.value
  cases hb : h.blocks[q.c.storage]? with
  | none => simp
  | some e => simp

theorem QueueObj.value_write_self (h : Heap α) (q : QueueObj) (v : Queue α) (w : Deque α)
    (hv : q.value h = some v) : q.value (q.c.write h w) = some ⟨w⟩ := by
  rw [QueueObj.value_iff] at hv ⊢
  have hlt : q.c.storage < h.blocks.length := by
    rcases Nat.lt_or_ge q.c.storage h.blocks.length with hl | hl
    · exact hl
    · rw [List.getElem?_eq_none hl] at hv
      cases hv
  simp [DequeObj.write, List.getElem?_set_self hlt]

theorem QueueObj.value_write_other (h : Heap α) (q p : QueueObj) (w : Deque α)
    (hne : p.c.storage ≠ q.c.storage) : p.value (q.c.write h w) = p.value h := by
  unfold QueueObj.value DequeObj.value DequeObj.write
  rw [List.getElem?_set_ne (Ne.symm hne)]

theorem QueueObj.call_spec (h : Heap α) (q : QueueObj) (v : Queue α) (op : Op α)
    (hv : q.value h = some v) :
    q.call h op = some ((v.apply op).1, q.c.write h (v.apply op).2.c) := by
  simp [QueueObj.call, hv]

theorem QueueObj.run_spec (ops : List (Op α)) (h : Heap α) (q : QueueObj) (v : Queue α)
    (hv : q.value h = some v) :
    ∃ h2 : Heap α,
      QueueObj.run h q ops = some ((v.run ops).1, h2)
        ∧ q.value h2 = some (v.run ops).2
        ∧ ∀ p : QueueObj, p.c.storage ≠ q.c.storage → p.value h2 = p.value h := by
  induction ops generalizing h v with
  | nil => exact ⟨h, rfl, hv, fun _ _ => rfl⟩
  | cons op rest ih =>
    have hw := QueueObj.value_write_self h q v (v.apply op).2.c hv
    obtain ⟨h2, hrun, hval, hframe⟩ := ih (q.c.write h (v.apply op).2.c) (v.apply op).2 hw
    refine ⟨h2, ?_, hval, ?_⟩
    · simp [QueueObj.run, QueueObj.call_spec h q v op hv, hrun, Queue.run]
    · intro p hne
      rw [hframe p hne, QueueObj.value_write_other h q p _ hne]

theorem QueueObj.copy_construct_spec (h : Heap α) (q : QueueObj) (v : Queue α)
    (hv : q.value h = some v) :
    QueueObj.copy_construct h q = some (⟨⟨h.blocks.length⟩⟩, ⟨h.blocks ++ [v.c.elems]⟩)
      ∧ QueueObj.value ⟨h.blocks ++ [v.c.elems]⟩ ⟨⟨h.blocks.length⟩⟩ = some (Queue.copy v)
      ∧ h.blocks.length ≠ q.c.storage
      ∧ QueueObj.value ⟨h.blocks ++ [v.c.elems]⟩ q = some v := by
  have hb := (QueueObj.value_iff h q v).mp hv
  have hlt : q.c.storage < h.blocks.length := by
    rcases Nat.lt_or_ge q.c.storage h.blocks.length with hl | hl
    · exact hl
    · rw [List.getElem?_eq_none hl] at hb
      cases hb
  refine ⟨?_, ?_, ?_, ?_⟩
  · simp [QueueObj.copy_construct, DequeObj.copy_construct, DequeObj.value, hb]
  · rw [QueueObj.value_iff]
    simp [Queue.copy]
  · omega
  · rw [QueueObj.value_iff]
    simp only
    rw [List.getElem?_append_left hlt]
    exact hb

theorem QueueObj.copy_assign_spec (h : Heap α) (r q : QueueObj) (w v : Queue α)
    (hr : r.value h = some w) (hv : q.value h = some v) :
    QueueObj.copy_assign h r q = some (r.c.write h v.c) := by
  have hb := (QueueObj.value_iff h q v).mp hv
  have hc := (QueueObj.value_iff h r w).mp hr
  simp [QueueObj.copy_assign, DequeObj.copy_assign, DequeObj.value, hb, hc]

/-- Calls made on an object are seen by whoever reads the same storage: the store tells
shared storage from separate storage. -/
theorem QueueObj.run_same_storage_example :
    QueueObj.run (⟨[[1, 2]]⟩ : Heap Nat) ⟨⟨0⟩⟩ [.push 9]
        = some ([(.push 9, .ok ())], ⟨[[1, 2, 9]]⟩)
      ∧ QueueObj.value (⟨[[1, 2, 9]]⟩ : Heap Nat) ⟨⟨0⟩⟩ = some ⟨⟨[1, 2, 9]⟩⟩ := by
  constructor
  · simp [QueueObj.run, QueueObj.call, QueueObj.value, DequeObj.value, DequeObj.write,
      Queue.apply, Queue.push, Deque.push_back]
  · simp [QueueObj.value, DequeObj.value]

/-- C14 (copies are independent).  Let `q` be a queue object with value `v`.  The copy
constructor gives a new object `r` that holds the contents of `v` in storage of its own;
copy assignment to another object `r` gives `r` the contents of `v`.  In both cases the
copy compares with `q` as `q` compares with itself, so equal when the `==` of the element
type is reflexive, and after any `push` and `pop` calls made on `r`, which change `r` as
they change a queue with the contents of `v`, the object `q` still has the value `v`: the
same contents, `size()`, `front()` and `back()`. -/
theorem C14_copy_independent [BEq α] (h : Heap α) (q : QueueObj) (v : Queue α)
    (hv : q.value h = some v) (ops : List (Op α)) :
    (∃ (r : QueueObj) (h1 h2 : Heap α),
        QueueObj.copy_construct h q = some (r, h1)
          ∧ r.value h1 = some (Queue.copy v)
          ∧ q.value h1 = some v
          ∧ QueueObj.run h1 r ops = some (((Queue.copy v).run ops).1, h2)
          ∧ r.value h2 = some ((Queue.copy v).run ops).2
          ∧ q.value h2 = some v
          ∧ (q.value h2).map (fun s => s.c.elems) = some v.c.elems
          ∧ (q.value h2).map Queue.size = some v.size
          ∧ (q.value h2).map Queue.front_const = some v.front_const
          ∧ (q.value h2).map Queue.back_const = some v.back_const)
      ∧ (∀ (r : QueueObj) (w : Queue α),
          r.value h = some w → r.c.storage ≠ q.c.storage →
          ∃ h1 h2 : Heap α,
            QueueObj.copy_assign h r q = some h1
              ∧ r.value h1 = some (Queue.copy v)
              ∧ q.value h1 = some v
              ∧ QueueObj.run h1 r ops = some (((Queue.copy v).run ops).1, h2)
              ∧ r.value h2 = some ((Queue.copy v).run ops).2
              ∧ q.value h2 = some v
              ∧ (q.value h2).map (fun s => s.c.elems) = some v.c.elems
              ∧ (q.value h2).map Queue.size = some v.size
              ∧ (q.value h2).map Queue.front_const = some v.front_const
              ∧ (q.value h2).map Queue.back_const = some v.back_const)
      ∧ Queue.copy v = v
      ∧ Queue.eq (Queue.copy v) v = Queue.eq v v
      ∧ ((∀ x : α, (x == x) = true) → Queue.eq (Queue.copy v) v = .ok true) := by
  refine ⟨?_, ?_, rfl, rfl, ?_⟩
  · obtain ⟨hc, hr1, hne, hq1⟩ := QueueObj.copy_construct_spec h q v hv
    obtain ⟨h2, hrun, hr2, hframe⟩ :=
      QueueObj.run_spec ops ⟨h.blocks ++ [v.c.elems]⟩ ⟨⟨h.blocks.length⟩⟩ (Queue.copy v) hr1
    have hq2 : q.value h2 = some v := by
      rw [hframe q (Ne.symm hne)]
      exact hq1
    exact ⟨_, _, h2, hc, hr1, hq1, hrun, hr2, hq2, by simp [hq2], by simp [hq2],
      by simp [hq2], by simp [hq2]⟩
  · intro r w hr hne
    have hr1 : r.value (r.c.write h v.c) = some (Queue.copy v) :=
      QueueObj.value_write_self h r w v.c hr
    have hq1 : q.value (r.c.write h v.c) = some v := by
      rw [QueueObj.value_write_other h r q v.c (Ne.symm hne)]
      exact hv
    obtain ⟨h2, hrun, hr2, hframe⟩ :=
      QueueObj.run_spec ops (r.c.write h v.c) r (Queue.copy v) hr1
    have hq2 : q.value h2 = some v := by
      rw [hframe q (Ne.symm hne)]
      exact hq1
    exact ⟨_, h2, QueueObj.copy_assign_spec h r q w v hr hv, hr1, hq1, hrun, hr2, hq2,
      by simp [hq2], by simp [hq2], by simp [hq2], by simp [hq2]⟩
  · intro hr
    exact congrArg Except.ok (Deque.eq_self hr v.c)

/-- Witness of C14 on a store with a queue object holding 1, 2 and another holding 7. -/
theorem C14_copy_independent_witness :
    QueueObj.value (⟨[[1, 2], [7]]⟩ : Heap Nat) ⟨⟨0⟩⟩ = some ⟨⟨[1, 2]⟩⟩
      ∧ (∃ (r : QueueObj) (h1 h2 : Heap Nat),
          QueueObj.copy_construct (⟨[[1, 2], [7]]⟩ : Heap Nat) ⟨⟨0⟩⟩ = some (r, h1)
            ∧ QueueObj.run h1 r [.pop, .push 9]
                = some (((⟨⟨[1, 2]⟩⟩ : Queue Nat).run [.pop, .push 9]).1, h2)
            ∧ r.value h2 = some ((⟨⟨[1, 2]⟩⟩ : Queue Nat).run [.pop, .push 9]).2
            ∧ QueueObj.value h2 ⟨⟨0⟩⟩ = some ⟨⟨[1, 2]⟩⟩)
      ∧ QueueObj.value (⟨[[1, 2], [7]]⟩ : Heap Nat) ⟨⟨1⟩⟩ = some ⟨⟨[7]⟩⟩
      ∧ (1 : Nat) ≠ 0
      ∧ (∃ h1 h2 : Heap Nat,
          QueueObj.copy_assign (⟨[[1, 2], [7]]⟩ : Heap Nat) ⟨⟨1⟩⟩ ⟨⟨0⟩⟩ = some h1
            ∧ QueueObj.run h1 ⟨⟨1⟩⟩ [.pop, .push 9]
                = some (((⟨⟨[1, 2]⟩⟩ : Queue Nat).run [.pop, .push 9]).1, h2)
            ∧ QueueObj.value h2 ⟨⟨0⟩⟩ = some ⟨⟨[1, 2]⟩⟩)
      ∧ (∀ x : Nat, (x == x) = true)
      ∧ Queue.eq (Queue.copy (⟨⟨[1, 2]⟩⟩ : Queue Nat)) ⟨⟨[1, 2]⟩⟩ = .ok true := by
  have hq : QueueObj.value (⟨[[1, 2], [7]]⟩ : Heap Nat) ⟨⟨0⟩⟩ = some ⟨⟨[1, 2]⟩⟩ := by
    simp [QueueObj.value, DequeObj.value]
  have hr : QueueObj.value (⟨[[1, 2], [7]]⟩ : Heap Nat) ⟨⟨1⟩⟩ = some ⟨⟨[7]⟩⟩ := by
    simp [QueueObj.value, DequeObj.value]
  have main := C14_copy_independent (⟨[[1, 2], [7]]⟩ : Heap Nat) ⟨⟨0⟩⟩ ⟨⟨[1, 2]⟩⟩ hq
    [.pop, .push 9]
  obtain ⟨⟨r, h1, h2, hc, -, -, hrun, hr2, hq2, -⟩, hassign, -, -, heq⟩ := main
  obtain ⟨a1, a2, ha, -, -, harun, -, haq, -⟩ := hassign ⟨⟨1⟩⟩ ⟨⟨[7]⟩⟩ hr (by decide)
  exact ⟨hq, ⟨r, h1, h2, hc, hrun, hr2, hq2⟩, hr, by decide, ⟨a1, a2, ha, harun, haq⟩,
    fun x => by simp, heq (fun x => by simp)⟩

/-- C15 (construction from a container keeps contents and order).  The queue constructed
from `cont` has `cont` as its container and the size of `cont`.  When `cont` is not empty,
`front()` returns its first element and `back()` its last; as many rounds of `front()`
followed by `pop()` as `cont` has elements all succeed, deliver the elements of `cont`
from front to back, and leave the queue empty. -/
theorem C15_construct_from_container (cont : Deque α) :
    (Queue.ofContainer cont).container = cont
      ∧ (Queue.ofContainer cont).size = cont.size
      ∧ (cont.empty = false →
          ∃ x y : α, cont.elems.head? = some x ∧ cont.elems.getLast? = some y
            ∧ (Queue.ofContainer cont).front = (.ok x, Queue.ofContainer cont)
            ∧ (Queue.ofContainer cont).back = (.ok y, Queue.ofContainer cont))
      ∧ (Queue.ofContainer cont).popN cont.size
          = (cont.elems.map (fun v => (Except.ok v, Except.ok ())), Queue.new) := by
  obtain ⟨xs⟩ := cont
  refine ⟨rfl, rfl, ?_, ?_⟩
  · intro hne
    cases xs with
    | nil => simp [Deque.empty] at hne
    | cons x tl =>
      refine ⟨x, (x :: tl).getLast (by simp), rfl, List.getLast?_eq_getLast _ _, ?_, ?_⟩
      · exact Queue.front_cons x tl
      · exact Queue.back_cons x tl
  · have := Queue.popN_mk xs xs.length (Nat.le_refl _)
    simpa [Queue.ofContainer, Deque.size, Queue.new] using this

/-- Witness of C15 on the container of naturals holding 4, 5, 6. -/
theorem C15_construct_from_container_witness :
    (⟨[4, 5, 6]⟩ : Deque Nat).empty = false
      ∧ ∃ x y : Nat, ([4, 5, 6] : List Nat).head? = some x
          ∧ ([4, 5, 6] : List Nat).getLast? = some y
          ∧ (Queue.ofContainer (⟨[4, 5, 6]⟩ : Deque Nat)).front
              = (.ok x, Queue.ofContainer ⟨[4, 5, 6]⟩)
          ∧ (Queue.ofContainer (⟨[4, 5, 6]⟩ : Deque Nat)).back
              = (.ok y, Queue.ofContainer ⟨[4, 5, 6]⟩) :=
  ⟨rfl, (C15_construct_from_container (⟨[4, 5, 6]⟩ : Deque Nat)).2.2.1 rfl⟩

/-! ## Verified properties: emplace, default construction, state, failures, inequality -/

/-- C16 (emplace postcondition).  On every queue `emplace(args...)` returns normally with
the element built from the arguments, `T(args...)`; the container is the old contents
followed by that element, so `size()` grows by exactly one, the old elements keep their
positions and `back()` returns the new element.  The queue afterwards is the queue that
`push(T(args...))` gives, by copy or by transfer. -/
theorem C16_emplace_postcondition {A : Type} (q : Queue α) (ctor : A → α) (args : A) :
    (q.emplace ctor args).1 = .ok (ctor args)
      ∧ (q.emplace ctor args).2.c.elems = q.c.elems ++ [ctor args]
      ∧ (q.emplace ctor args).2.size = q.size + 1
      ∧ (q.emplace ctor args).2.c.elems.take q.size = q.c.elems
      ∧ (q.emplace ctor args).2.back = (.ok (ctor args), (q.emplace ctor args).2)
      ∧ (q.emplace ctor args).2 = (q.push (ctor args)).2
      ∧ (q.emplace ctor args).2 = (q.push_move (ctor args)).2 := by
  obtain ⟨⟨xs⟩⟩ := q
  have hem : Queue.emplace (⟨⟨xs⟩⟩ : Queue α) ctor args
      = (.ok (ctor args), ⟨⟨xs ++ [ctor args]⟩⟩) := rfl
  refine ⟨rfl, rfl, ?_, ?_, ?_, rfl, rfl⟩
  · simp [hem, Queue.size, Deque.size]
  · simp [hem, Queue.size, Deque.size]
  · rw [hem]
    cases hys : xs ++ [ctor args] with
    | nil => simp at hys
    | cons y ys =>
      rw [Queue.back_cons]
      simp [← hys]

/-- C17 (a default-constructed queue is empty).  Its `size()` is 0, `empty()` is true, its
container holds no element, and it compares equal to a default-constructed queue
(`==` true, `!=` false). -/
theorem C17_default_constructed_empty [BEq α] :
    (Queue.new : Queue α).size = 0
      ∧ (Queue.new : Queue α).empty = true
      ∧ (Queue.new : Queue α).container.elems = []
      ∧ (Queue.new : Queue α).container.size = 0
      ∧ Queue.eq (Queue.new : Queue α) Queue.new = .ok true
      ∧ Queue.ne (Queue.new : Queue α) Queue.new = .ok false := by
  refine ⟨rfl, rfl, rfl, rfl, ?_, ?_⟩
  · simp [Queue.eq, Deque.eq, Deque.equal, Queue.new]
  · simp [Queue.ne, Deque.ne, Deque.eq, Deque.equal, Queue.new]

/-- C18 (no hidden buffering).  On every queue, and so on every queue reached by push,
emplace, pop, swap and copy, `size()` is the element count of the container that
`container()` returns and `empty()` is the emptiness of that container; the queue is
determined by that container. -/
theorem C18_no_hidden_buffering (q : Queue α) :
    q.size = q.container.size
      ∧ q.size = q.container.elems.length
      ∧ q.empty = q.container.empty
      ∧ q.empty = q.container.elems.isEmpty
      ∧ q = Queue.ofContainer q.container := by
  exact ⟨rfl, rfl, rfl, rfl, rfl⟩

/-- C19 (failure of the append during push).  When `push_back` of the container throws
`e`, the overload `push(const value_type&)` throws the same `e` and leaves the queue as it
was, and so does `push(value_type&&)` for an element type that is not
nothrow-move-constructible.  For a nothrow-move-constructible element type the overload
`push(value_type&&)` is `noexcept`, and the failure ends the program through
`std::terminate` instead of reaching the caller: so for a queue of integers holding 1, 2,
`push(42)` with an allocation failure. -/
theorem C19_push_failure_outcomes (q : Queue α) (v : α) (e : AppendFailure) :
    Queue.push_move_fallible true (some AppendFailure.bad_alloc) (⟨⟨[1, 2]⟩⟩ : Queue Int) 42
        = Outcome.terminated
      ∧ Queue.push_fallible (some AppendFailure.bad_alloc) (⟨⟨[1, 2]⟩⟩ : Queue Int) 42
        = Outcome.threw AppendFailure.bad_alloc ⟨⟨[1, 2]⟩⟩
      ∧ Queue.push_fallible (some e) q v = Outcome.threw e q
      ∧ Queue.push_move_fallible false (some e) q v = Outcome.threw e q
      ∧ Queue.push_move_fallible true (some e) q v = Outcome.terminated
      ∧ Queue.push_fallible (none : Option AppendFailure) q v
          = Outcome.returned () (q.push v).2
      ∧ (∀ b : Bool, Queue.push_move_fallible b (none : Option AppendFailure) q v
          = Outcome.returned () (q.push_move v).2) := by
  refine ⟨rfl, rfl, rfl, rfl, rfl, rfl, ?_⟩
  intro b
  cases b <;> rfl

/-- C20 (the operator `!=` negates `==`).  On every two queues both comparisons return
normally, and `a != b` is true exactly when `a == b` is false. -/
theorem C20_ne_negates_eq [BEq α] (a b : Queue α) :
    (∃ r : Bool, Queue.eq a b = .ok r ∧ Queue.ne a b = .ok (!r))
      ∧ (Queue.ne a b = .ok true ↔ Queue.eq a b = .ok false)
      ∧ (Queue.ne a b = .ok false ↔ Queue.eq a b = .ok true) := by
  refine ⟨⟨Deque.eq a.c b.c, rfl, rfl⟩, ?_, ?_⟩
  · simp [Queue.ne, Queue.eq, Deque.ne]
  · simp [Queue.ne, Queue.eq, Deque.ne]

end QueueH
